import Mathlib

/-!
Verification development for the selector-resolution and trace-annotation
engine of the foundry-mcp-server repository (src/tools/cast.ts).

External effects (subprocess runs of the toolchain primitives, file reads)
are modelled as oracle functions passed explicitly:
  * sigOf sig      models `cast sig "<sig>"`: some message on success, none on failure;
  * onlineOf sel   models `cast 4byte <sel>`:  some message on success, none on failure;
  * fileRead path  models the access/readFile pair: some content when the file
    exists, none when it does not;
  * lookup sel     models the trace-tool 4byte lookup already split into trimmed
    lines (none when the command failed or its trimmed message was empty).

JavaScript regex global scanning and String.replace are embedded character by
character over List Char; fuel arguments (always instantiated with the list
length, which strictly decreases on every step) keep the definitions
structurally recursive so that concrete instances evaluate in the kernel.
-/

/-- JavaScript String.prototype.trim, embedded at the character level:
drop whitespace from both ends. -/
def jsTrim (s : String) : String :=
  String.mk (((s.data.dropWhile Char.isWhitespace).reverse.dropWhile Char.isWhitespace).reverse)

/-- Helper of jsSplitNl: accumulate the current segment (reversed). -/
def splitNlAux : List Char → List Char → List String
  | [], cur => [String.mk cur.reverse]
  | c :: rest, cur =>
    if c = '\n' then String.mk cur.reverse :: splitNlAux rest []
    else splitNlAux rest (c :: cur)

/-- JavaScript String.prototype.split with separator the newline character. -/
def jsSplitNl (s : String) : List String := splitNlAux s.data []

/-- JavaScript String.prototype.startsWith, embedded at the character level. -/
def jsStartsWith (s pre : String) : Bool := pre.data.isPrefixOf s.data

/-- JavaScript String.prototype.includes for a single character. -/
def jsContains (s : String) (c : Char) : Bool := s.data.contains c

/-- JavaScript String.prototype.substring(0, n). -/
def jsTake (s : String) (n : Nat) : String := String.mk (s.data.take n)

/-- The character class [a-fA-F0-9] of the selector regex in cast.ts. -/
def isHexDigit (c : Char) : Bool :=
  (decide ('0' ≤ c) && decide (c ≤ '9')) ||
  (decide ('a' ≤ c) && decide (c ≤ 'f')) ||
  (decide ('A' ≤ c) && decide (c ≤ 'F'))

/-- The negative lookahead (?![a-fA-F0-9]) of cast.ts: the scan position is at
end of input or the next character is not a hex digit. -/
def boundaryOk : List Char → Bool
  | [] => true
  | c :: _ => !(isHexDigit c)

/-- One attempt of the regex 0x[a-fA-F0-9]\x7b8\x7d(?![a-fA-F0-9]) at the head of
the input: some (the ten matched characters) on success. -/
def matchesAt : List Char → Option (List Char)
  | c0 :: c1 :: rest =>
    if decide (c0 = '0') && decide (c1 = 'x') && decide (8 ≤ rest.length) &&
        (rest.take 8).all isHexDigit && boundaryOk (rest.drop 8)
    then some (c0 :: c1 :: rest.take 8)
    else none
  | _ => none

/-- The left-to-right global regex scan of String.prototype.match: on a match
the scan resumes after the ten consumed characters, otherwise it advances by
one. Positions are absolute (offset p); fuel bounds the recursion. -/
def scanAux : Nat → Nat → List Char → List (Nat × List Char)
  | 0, _, _ => []
  | fuel + 1, p, l =>
    match matchesAt l with
    | some m => (p, m) :: scanAux fuel (p + 10) (l.drop 10)
    | none =>
      match l with
      | [] => []
      | _ :: rest => scanAux fuel (p + 1) rest

/-- All regex matches of the selector pattern in a text, with their start
positions, in scan order. -/
def scanP (t : List Char) : List (Nat × List Char) := scanAux t.length 0 t

/-- Order-preserving deduplication keeping the first occurrence of each
element: the semantics of [...new Set(array)] in cast.ts. -/
def dkfAux {α : Type} [DecidableEq α] : Nat → List α → List α
  | 0, _ => []
  | _ + 1, [] => []
  | fuel + 1, x :: xs => x :: dkfAux fuel (xs.filter (fun y => decide (y ≠ x)))

/-- See dkfAux; the fuel is the list length. -/
def dedupKeepFirst {α : Type} [DecidableEq α] (l : List α) : List α := dkfAux l.length l

/-- The selector extractor shared by processFunctionSelectors and
analyze_transaction_trace: [...new Set(text.match(selectorRegex) || [])]. -/
def extractSelectors (t : List Char) : List (List Char) :=
  dedupKeepFirst ((scanP t).map Prod.snd)

/-- Deduplication of position-tagged matches keeping, for each selector value,
its first (hence lowest-position) entry. -/
def dpAux : Nat → List (Nat × List Char) → List (Nat × List Char)
  | 0, _ => []
  | _ + 1, [] => []
  | fuel + 1, e :: es => e :: dpAux fuel (es.filter (fun y => decide (y.2 ≠ e.2)))

/-- Position of the first scan match whose value is the given selector
(0 when the selector is never matched). -/
def firstMatchPos (t s : List Char) : Nat :=
  match (scanP t).find? (fun q => decide (q.2 = s)) with
  | some q => q.1
  | none => 0

/-- First position of the text at which the selector pattern matches with the
given value, counting also occurrences that overlap an earlier match of the
scan: the position of the selector's first occurrence in the text (with the
trailing non-hex boundary), independent of the scanning discipline. -/
def firstOccPos (t s : List Char) : Option Nat :=
  (List.range t.length).find? (fun p => decide (matchesAt (t.drop p) = some s))

/-- Whether the first occurrence of a precedes the first occurrence of b. -/
def occBefore (t a b : List Char) : Bool :=
  match firstOccPos t a, firstOccPos t b with
  | some i, some j => decide (i < j)
  | _, _ => false

/-- The global replace text.replace(new RegExp(selector + lookahead, g),
selector + " [" + ann + "]") of cast.ts, embedded as a character scan: at each
position, if the selector occurs here with the trailing non-hex boundary the
replacement is emitted and the scan resumes after the occurrence, otherwise
one character is copied. -/
def annAux : Nat → List Char → List Char → List Char → List Char
  | 0, _, _, l => l
  | fuel + 1, sel, ann, l =>
    match l with
    | [] => []
    | c :: rest =>
      if !sel.isEmpty && sel.isPrefixOf (c :: rest) && boundaryOk ((c :: rest).drop sel.length)
      then sel ++ ' ' :: '[' :: (ann ++ ']' :: annAux fuel sel ann ((c :: rest).drop sel.length))
      else c :: annAux fuel sel ann rest

/-- See annAux; the fuel is the text length. -/
def annotateSel (sel ann t : List Char) : List Char := annAux t.length sel ann t

/-- Number of occurrences the global replace of annAux rewrites, following the
same scanning discipline. -/
def cntAux : Nat → List Char → List Char → Nat
  | 0, _, _ => 0
  | fuel + 1, sel, l =>
    match l with
    | [] => 0
    | c :: rest =>
      if !sel.isEmpty && sel.isPrefixOf (c :: rest) && boundaryOk ((c :: rest).drop sel.length)
      then 1 + cntAux fuel sel ((c :: rest).drop sel.length)
      else cntAux fuel sel rest

/-- See cntAux; the fuel is the text length. -/
def countOcc (sel t : List Char) : Nat := cntAux t.length sel t

/-- signatures.sort((a, b) => a.length - b.length) of processFunctionSelectors:
stable sort by string length ascending. -/
def sortByLen (l : List String) : List String :=
  l.mergeSort (fun a b => decide (a.length ≤ b.length))

/-- signatures.slice(0, 3) after the length sort. -/
def chooseInline (sigs : List String) : List String := (sortByLen sigs).take 3

/-- signatures.slice(0, 3).join(" or ") after the length sort. -/
def chooseDisplay (sigs : List String) : String :=
  String.intercalate " or " (chooseInline sigs)

/-- Second definition for the refinement claim, following the spec's words for
the inline ranker: take at most 3 signatures, preferring local results and
falling back to remote, with remote candidates sorted by signature string
length ascending before truncation. -/
def rankInlineSpec (locs remSigs : List String) : List String :=
  (locs ++ sortByLen remSigs).take 3

/-- The body of the selectorMap.forEach of processFunctionSelectors: when the
entry has at least one signature, globally annotate its selector with
"Likely: " followed by the chosen display signatures. -/
def annotateEntry (acc : List Char) (e : List Char × List String) : List Char :=
  if 0 < e.2.length
  then annotateSel e.1 ("Likely: " ++ chooseDisplay e.2).data acc
  else acc

/-- processFunctionSelectors of cast.ts: extract the selectors, return the
text unchanged when none is found, otherwise look each selector up and fold
the annotation step over the entries in extraction order. -/
def processFunctionSelectors (lookup : List Char → Option (List String)) (t : List Char) :
    List Char :=
  let selectors := extractSelectors t
  if selectors.isEmpty then t
  else (selectors.filterMap (fun sel => (lookup sel).map (fun sigs => (sel, sigs)))).foldl
    annotateEntry t

/-- String-level selector extraction. -/
def extractS (s : String) : List String := (extractSelectors s.data).map String.mk

/-- The online 4byte lookup post-processing shared by cast_4byte_from_file and
analyze_transaction_trace: on success with a nonempty trimmed message, split
on newlines and trim each line; otherwise the empty list. -/
def onlineSigs (onlineOf : String → Option String) (sel : String) : List String :=
  match onlineOf sel with
  | some msg => if jsTrim msg ≠ "" then (jsSplitNl (jsTrim msg)).map jsTrim else []
  | none => []

/-- The line preprocessing of cast_4byte_from_file: split on newlines, trim,
drop blank lines and lines starting with #. -/
def castFileLines (content : String) : List String :=
  ((jsSplitNl content).map jsTrim).filter
    (fun l => !(l == "") && !(jsStartsWith l "#"))

/-- The line preprocessing of analyze_transaction_trace: additionally keeps
only lines containing a parenthesis. -/
def analyzeFileLines (content : String) : List String :=
  ((jsSplitNl content).map jsTrim).filter
    (fun l => !(l == "") && !(jsStartsWith l "#") && jsContains l '(')

/-- One iteration of the matching loop of cast_4byte_from_file: skip lines
without a parenthesis; exact match of the computed selector adds the plain
signature; otherwise, with fuzzy matching enabled, a first-six-characters
match adds the signature annotated with the computed selector. -/
def matchLine (sigOf : String → Option String) (selector : String) (fuzzyMatch : Bool)
    (sig : String) : Option String :=
  if !(jsContains sig '(') then none
  else
    match sigOf sig with
    | none => none
    | some msg =>
      if jsTrim msg == selector then some sig
      else if fuzzyMatch && (jsTake (jsTrim msg) 6 == jsTake selector 6)
      then some (sig ++ " (partial match: " ++ jsTrim msg ++ ")")
      else none

/-- The matchingSignatures accumulation loop of cast_4byte_from_file. -/
def matchingSignatures (sigOf : String → Option String) (selector : String)
    (fuzzyMatch : Bool) (lines : List String) : List String :=
  lines.filterMap (matchLine sigOf selector fuzzyMatch)

/-- The validation regex ^0x[a-fA-F0-9]\x7b8\x7d$ of cast_4byte_from_file. -/
def validSelector (s : String) : Bool :=
  match s.data with
  | '0' :: 'x' :: rest => decide (rest.length = 8) && rest.all isHexDigit
  | _ => false

/-- An MCP tool response: its text content and its error flag. -/
structure ToolResult where
  text : String
  isError : Bool
deriving DecidableEq

/-- The cast_4byte_from_file tool of cast.ts (after the foundry-installed
check), with the toolchain and the file system as oracles. -/
def cast_4byte_from_file (sigOf onlineOf fileRead : String → Option String)
    (selector filePath : String) (fuzzyMatch : Bool) : ToolResult :=
  if !(validSelector selector) then
    ⟨"Invalid selector format. Must be 0x followed by 8 hex characters.", true⟩
  else
    let onlineSignatures := onlineSigs onlineOf selector
    match fileRead filePath with
    | none => ⟨"Signatures file not found: " ++ filePath, true⟩
    | some content =>
      let signatures := castFileLines content
      if signatures.isEmpty then ⟨"No signatures found in the provided file.", true⟩
      else
        let matched := matchingSignatures sigOf selector fuzzyMatch signatures
        let localPart : String :=
          if 0 < matched.length
          then "Matching signatures from local file:\n" ++
            String.intercalate "\n" matched ++ "\n\n"
          else "No matching signatures found in local file.\n\n"
        let onlinePart : String :=
          if 0 < onlineSignatures.length
          then "Possible signatures from 4byte directory:\n" ++
            String.intercalate "\n" onlineSignatures
          else "No signatures found in 4byte directory."
        ⟨"Results for selector " ++ selector ++ ":\n\n" ++ localPart ++ onlinePart, false⟩

/-- The local-file matching of analyze_transaction_trace for one selector:
empty when no signature file is given or the file does not exist, otherwise
the candidate lines whose computed selector equals the target exactly. -/
def analyzeLocalSigs (sigOf fileRead : String → Option String) (sigFile : Option String)
    (sel : String) : List String :=
  match sigFile with
  | none => []
  | some f =>
    match fileRead f with
    | none => []
    | some content =>
      (analyzeFileLines content).filter (fun sig =>
        match sigOf sig with
        | some msg => jsTrim msg == sel
        | none => false)

/-- A list item line of the analysis report. -/
def itemLine (sig : String) : String := "    - " ++ sig

/-- The local-matches section of one selector block of the report. -/
def localSectionLines (locs : List String) : List String :=
  if 0 < locs.length
  then ("  Local matches (" ++ toString locs.length ++ "):") :: locs.map itemLine
  else []

/-- The online-matches section of one selector block of the report: at most
the first five candidates, with an overflow item when more exist. -/
def onlineSectionLines (onls : List String) : List String :=
  if 0 < onls.length
  then (("  Online matches (" ++ toString onls.length ++ "):") :: (onls.take 5).map itemLine)
    ++ (if 5 < onls.length then [itemLine ("... and " ++ toString (onls.length - 5) ++ " more")]
        else [])
  else []

/-- One selector block of the analysis report, as the list of its lines. -/
def selectorBlockLines (sel : String) (locs onls : List String) : List String :=
  ("Selector: " ++ sel) :: (localSectionLines locs ++ onlineSectionLines onls
    ++ (if locs.length = 0 ∧ onls.length = 0 then ["  No matches found"] else []) ++ [""])

/-- The output text of analyze_transaction_trace (after a successful trace),
with the toolchain and the file system as oracles. -/
def analyzeOutput (sigOf onlineOf fileRead : String → Option String) (sigFile : Option String)
    (txHash trace : String) : String :=
  let selectors := extractS trace
  if selectors.isEmpty then "No function selectors found in the transaction trace."
  else
    let entries := selectors.map (fun sel =>
      (sel, onlineSigs onlineOf sel, analyzeLocalSigs sigOf fileRead sigFile sel))
    let header := "Analysis of transaction " ++ txHash ++ ":\n\n" ++
      "Found " ++ toString selectors.length ++ " unique function selectors in the trace.\n\n"
    let blocks := String.join (entries.map (fun e =>
      String.join ((selectorBlockLines e.1 e.2.2 e.2.1).map (fun ln => ln ++ "\n"))))
    let simplified := entries.foldl (fun acc e =>
      match e.2.2.head? <|> e.2.1.head? with
      | some best => annotateSel e.1.data best.data acc
      | none => acc) trace.data
    header ++ blocks ++ "Simplified trace with function names:\n\n" ++ String.mk simplified

/-- The analyze_transaction_trace tool result for a successfully obtained
trace: the report text with the error flag clear. -/
def analyze_transaction_trace (sigOf onlineOf fileRead : String → Option String)
    (sigFile : Option String) (txHash trace : String) : ToolResult :=
  ⟨analyzeOutput sigOf onlineOf fileRead sigFile txHash trace, false⟩

/-! ## Lemmas about the selector extractor -/

/-- Inversion of a successful regex attempt. -/
theorem matchesAt_some {l s : List Char} (h : matchesAt l = some s) :
    ∃ rest, l = '0' :: 'x' :: rest ∧ 8 ≤ rest.length ∧
      (rest.take 8).all isHexDigit = true ∧ boundaryOk (rest.drop 8) = true ∧
      s = '0' :: 'x' :: rest.take 8 := by
  match l with
  | [] => simp [matchesAt] at h
  | [c] => simp [matchesAt] at h
  | c0 :: c1 :: rest =>
    simp only [matchesAt] at h
    split at h
    · rename_i hc
      simp only [Bool.and_eq_true, decide_eq_true_eq] at hc
      obtain ⟨⟨⟨⟨h0, h1⟩, hlen⟩, hhex⟩, hbd⟩ := hc
      subst h0; subst h1
      exact ⟨rest, rfl, hlen, hhex, hbd, (Option.some.inj h).symm⟩
    · exact absurd h (by simp)

/-- Every entry of the scan is a regex match at its recorded position. -/
theorem scanAux_sound : ∀ (fuel p : Nat) (l : List Char) (e : Nat × List Char),
    e ∈ scanAux fuel p l → ∃ d, e.1 = p + d ∧ matchesAt (l.drop d) = some e.2 := by
  intro fuel
  induction fuel with
  | zero => intro p l e h; simp [scanAux] at h
  | succ n ih =>
    intro p l e h
    rcases hm : matchesAt l with _ | m
    · rcases l with _ | ⟨c, rest⟩
      · simp [scanAux, matchesAt] at h
      · simp only [scanAux, hm] at h
        obtain ⟨d, hd, hmm⟩ := ih (p + 1) rest e h
        exact ⟨d + 1, by omega, by simpa [List.drop_succ_cons] using hmm⟩
    · simp only [scanAux, hm] at h
      rcases List.mem_cons.mp h with h1 | h2
      · refine ⟨0, ?_, ?_⟩
        · simp [h1]
        · simpa [h1] using hm
      · obtain ⟨d, hd, hmm⟩ := ih (p + 10) (l.drop 10) e h2
        refine ⟨10 + d, by omega, ?_⟩
        rw [List.drop_drop] at hmm
        exact hmm

/-- Scan positions are strictly increasing. -/
theorem scanAux_pairwise : ∀ (fuel p : Nat) (l : List Char),
    (scanAux fuel p l).Pairwise (fun a b => a.1 < b.1) := by
  intro fuel
  induction fuel with
  | zero => intro p l; simp [scanAux]
  | succ n ih =>
    intro p l
    rcases hm : matchesAt l with _ | m
    · rcases l with _ | ⟨c, rest⟩
      · simp [scanAux, matchesAt]
      · simpa only [scanAux, hm] using ih (p + 1) rest
    · simp only [scanAux, hm]
      refine List.Pairwise.cons ?_ (ih (p + 10) (l.drop 10))
      intro y hy
      obtain ⟨d, hd, _⟩ := scanAux_sound n (p + 10) (l.drop 10) y hy
      simp only
      omega

/-- The deduplication returns a sublist of its input. -/
theorem dkfAux_sublist {α : Type} [DecidableEq α] : ∀ (fuel : Nat) (l : List α),
    List.Sublist (dkfAux fuel l) l := by
  intro fuel
  induction fuel with
  | zero => intro l; simp [dkfAux]
  | succ n ih =>
    intro l
    rcases l with _ | ⟨x, xs⟩
    · simp [dkfAux]
    · exact List.Sublist.cons₂ x ((ih _).trans (List.filter_sublist xs))

/-- The deduplication result has no duplicates. -/
theorem dkfAux_nodup {α : Type} [DecidableEq α] : ∀ (fuel : Nat) (l : List α),
    (dkfAux fuel l).Nodup := by
  intro fuel
  induction fuel with
  | zero => intro l; simp [dkfAux]
  | succ n ih =>
    intro l
    rcases l with _ | ⟨x, xs⟩
    · simp [dkfAux]
    · rw [dkfAux, List.nodup_cons]
      refine ⟨fun hx => ?_, ih _⟩
      have := (List.mem_filter.mp ((dkfAux_sublist n _).subset hx)).2
      simp at this

/-- The position-tagged deduplication returns a sublist of its input. -/
theorem dpAux_sublist : ∀ (fuel : Nat) (l : List (Nat × List Char)),
    List.Sublist (dpAux fuel l) l := by
  intro fuel
  induction fuel with
  | zero => intro l; simp [dpAux]
  | succ n ih =>
    intro l
    rcases l with _ | ⟨e, es⟩
    · simp [dpAux]
    · exact List.Sublist.cons₂ e ((ih _).trans (List.filter_sublist es))

/-- Filtering away elements the search predicate cannot accept does not
change the result of find?. -/
theorem find?_filter_of_imp {α : Type} (p q : α → Bool) (h : ∀ a, p a = true → q a = true) :
    ∀ l : List α, (l.filter q).find? p = l.find? p := by
  intro l
  induction l with
  | nil => rfl
  | cons a l ih =>
    by_cases hq : q a = true
    · rw [List.filter_cons_of_pos hq]
      by_cases hp : p a = true
      · rw [List.find?_cons_of_pos _ hp, List.find?_cons_of_pos _ hp]
      · rw [List.find?_cons_of_neg _ hp, List.find?_cons_of_neg _ hp, ih]
    · have hp : ¬ p a = true := fun hpa => hq (h a hpa)
      rw [List.filter_cons_of_neg (by simpa using hq), List.find?_cons_of_neg _ hp, ih]

/-- Each entry kept by the position-tagged deduplication is the first entry
of the input carrying its selector value. -/
theorem dpAux_find? : ∀ (fuel : Nat) (l : List (Nat × List Char)) (e : Nat × List Char),
    e ∈ dpAux fuel l → l.find? (fun q => decide (q.2 = e.2)) = some e := by
  intro fuel
  induction fuel with
  | zero => intro l e h; simp [dpAux] at h
  | succ n ih =>
    intro l e h
    rcases l with _ | ⟨a, es⟩
    · simp [dpAux] at h
    · simp only [dpAux] at h
      rcases List.mem_cons.mp h with rfl | h2
      · exact List.find?_cons_of_pos _ (by simp)
      · have hne : e.2 ≠ a.2 := by
          have hmem := (dpAux_sublist n _).subset h2
          have := (List.mem_filter.mp hmem).2
          simpa using this
        rw [List.find?_cons_of_neg _ (by simp; exact fun h' => hne h'.symm)]
        rw [← find?_filter_of_imp (fun q => decide (q.2 = e.2)) (fun y => decide (y.2 ≠ a.2))
          (fun y hy => by simp at hy ⊢; rw [hy]; exact hne) es]
        exact ih _ e h2

/-- Deduplicating the selector values commutes with dropping the positions. -/
theorem dkf_dp_map_snd : ∀ (fuel : Nat) (l : List (Nat × List Char)),
    dkfAux fuel (l.map Prod.snd) = (dpAux fuel l).map Prod.snd := by
  intro fuel
  induction fuel with
  | zero => intro l; simp [dkfAux, dpAux]
  | succ n ih =>
    intro l
    rcases l with _ | ⟨e, es⟩
    · simp [dkfAux, dpAux]
    · simp only [List.map_cons, dkfAux, dpAux]
      congr 1
      rw [List.filter_map, ih]
      rfl

/-- The extractor, exposed as the position-tagged scan with first-entry
deduplication followed by dropping the positions. -/
theorem extractSelectors_eq_dp (t : List Char) :
    extractSelectors t = (dpAux ((scanP t).map Prod.snd).length (scanP t)).map Prod.snd := by
  unfold extractSelectors dedupKeepFirst
  exact dkf_dp_map_snd _ _

/-! ## Claim C1 -/

/-- C1: for every input trace text, every selector returned by the extractor
(used by both processFunctionSelectors and analyze_transaction_trace) is 0x
followed by exactly 8 hex characters, and it is extracted from an occurrence
in the text that is not immediately followed by another hex digit (boundaryOk
holds right after the ten matched characters). -/
theorem selector_extraction_sound :
    ∀ (t : List Char), ∀ s ∈ extractSelectors t,
      (s.length = 10 ∧ s.take 2 = ['0', 'x'] ∧ (s.drop 2).all isHexDigit = true) ∧
      ∃ p, t.drop p = s ++ t.drop (p + 10) ∧ boundaryOk (t.drop (p + 10)) = true := by
  intro t s hs
  have hs' : s ∈ (scanP t).map Prod.snd := (dkfAux_sublist _ _).subset hs
  obtain ⟨e, he, rfl⟩ := List.mem_map.mp hs'
  obtain ⟨d, hd, hm⟩ := scanAux_sound t.length 0 t e he
  obtain ⟨rest, hl, hlen, hhex, hbd, hsval⟩ := matchesAt_some hm
  have h2 : t.drop (d + 10) = rest.drop 8 := by
    rw [← List.drop_drop, hl]
    rw [show (10 : Nat) = 2 + 8 by rfl, ← List.drop_drop]
    rfl
  constructor
  · refine ⟨?_, ?_, ?_⟩
    · rw [hsval]
      simp [List.length_take]
      omega
    · rw [hsval]; rfl
    · rw [hsval]; exact hhex
  · refine ⟨d, ?_, ?_⟩
    · rw [hl, hsval, h2]
      simp [List.cons_append, List.take_append_drop]
    · rw [h2]; exact hbd

/-- Witness for C1 at a concrete trace. -/
theorem selector_extraction_sound_witness :
    ("0x12345678".data ∈ extractSelectors "call 0x12345678!".data) ∧
      (("0x12345678".data.length = 10 ∧ "0x12345678".data.take 2 = ['0', 'x'] ∧
        ("0x12345678".data.drop 2).all isHexDigit = true) ∧
      ∃ p, "call 0x12345678!".data.drop p =
          "0x12345678".data ++ "call 0x12345678!".data.drop (p + 10) ∧
        boundaryOk ("call 0x12345678!".data.drop (p + 10)) = true) :=
  ⟨by decide, selector_extraction_sound _ _ (by decide)⟩

/-! ## Claim C2 -/

/-- C2 (counterexample): extraction order is not, in general, the order of
each selector's first occurrence in the text. In this trace the match at
position 0 consumes "0x12345670", whose tail overlaps the occurrence of
"0x12345678" at position 9 (with a valid right boundary); the scan therefore
only matches "0x12345678" later, at position 31, so it is listed after
"0xAAAAAAAA" although its first occurrence (9) is earlier (20). -/
theorem extract_order_counterexample :
    extractS "0x12345670x12345678 0xAAAAAAAA 0x12345678" =
        ["0x12345670", "0xAAAAAAAA", "0x12345678"] ∧
      firstOccPos "0x12345670x12345678 0xAAAAAAAA 0x12345678".data "0x12345678".data = some 9 ∧
      firstOccPos "0x12345670x12345678 0xAAAAAAAA 0x12345678".data "0xAAAAAAAA".data = some 20 ∧
      ¬ ((extractSelectors "0x12345670x12345678 0xAAAAAAAA 0x12345678".data).Pairwise
        (fun a b => occBefore "0x12345670x12345678 0xAAAAAAAA 0x12345678".data a b = true)) := by
  refine ⟨by decide, by decide, by decide, by decide⟩

/-- C2 (amended): extraction is deterministic; the extracted list contains
each distinct matched selector exactly once (Nodup) and is ordered by the
position of each selector's first matched occurrence in the left-to-right
non-overlapping scan, every extracted selector indeed matching at that
position. -/
theorem extract_first_match_order :
    ∀ t : List Char,
      (extractSelectors t).Nodup ∧
      (extractSelectors t).Pairwise (fun a b => firstMatchPos t a < firstMatchPos t b) ∧
      ∀ s ∈ extractSelectors t, matchesAt (t.drop (firstMatchPos t s)) = some s := by
  intro t
  refine ⟨dkfAux_nodup _ _, ?_, ?_⟩
  · rw [extractSelectors_eq_dp, List.pairwise_map]
    have hpw : (dpAux ((scanP t).map Prod.snd).length (scanP t)).Pairwise
        (fun a b => a.1 < b.1) :=
      (scanAux_pairwise t.length 0 t).sublist (dpAux_sublist _ _)
    refine List.Pairwise.imp_of_mem ?_ hpw
    intro a b ha hb hab
    have hfa : firstMatchPos t a.2 = a.1 := by
      unfold firstMatchPos
      rw [dpAux_find? _ _ _ ha]
    have hfb : firstMatchPos t b.2 = b.1 := by
      unfold firstMatchPos
      rw [dpAux_find? _ _ _ hb]
    rw [hfa, hfb]
    exact hab
  · intro s hs
    rw [extractSelectors_eq_dp] at hs
    obtain ⟨e, he, rfl⟩ := List.mem_map.mp hs
    have hf : firstMatchPos t e.2 = e.1 := by
      unfold firstMatchPos
      rw [dpAux_find? _ _ _ he]
    have heL : e ∈ scanP t := (dpAux_sublist _ _).subset he
    obtain ⟨d, hd, hm⟩ := scanAux_sound t.length 0 t e heL
    rw [hf, show e.1 = d by omega]
    exact hm

/-- Witness for C2 (amended) at a concrete trace and selector. -/
theorem extract_first_match_order_witness :
    ("0xcafecafe".data ∈ extractSelectors "a 0xdeadbeef b 0xcafecafe".data) ∧
      matchesAt ("a 0xdeadbeef b 0xcafecafe".data.drop
        (firstMatchPos "a 0xdeadbeef b 0xcafecafe".data "0xcafecafe".data)) =
        some "0xcafecafe".data :=
  ⟨by decide, (extract_first_match_order _).2.2 _ (by decide)⟩

/-! ## Lemmas about the annotator and the trace-tool pipeline -/

/-- The annotator's output length grows by exactly one bracketed annotation
(the annotation plus the three characters of the space and brackets) per
rewritten occurrence: the substitution is global. -/
theorem annAux_length : ∀ (fuel : Nat) (sel ann l : List Char),
    (annAux fuel sel ann l).length = l.length + cntAux fuel sel l * (ann.length + 3) := by
  intro fuel
  induction fuel with
  | zero => intro sel ann l; simp [annAux, cntAux]
  | succ n ih =>
    intro sel ann l
    rcases l with _ | ⟨c, rest⟩
    · simp [annAux, cntAux]
    · simp only [annAux, cntAux]
      by_cases hc : (!sel.isEmpty && sel.isPrefixOf (c :: rest) &&
          boundaryOk ((c :: rest).drop sel.length)) = true
      · rw [if_pos hc, if_pos hc]
        have hpre : List.IsPrefix sel (c :: rest) := by
          simp only [Bool.and_eq_true] at hc
          exact List.isPrefixOf_iff_prefix.mp hc.1.2
        have hlen : sel.length ≤ (c :: rest).length := hpre.length_le
        simp only [List.length_append, List.length_cons, ih, List.length_drop]
        have hexp : (1 + cntAux n sel ((c :: rest).drop sel.length)) * (ann.length + 3) =
            (ann.length + 3) + cntAux n sel ((c :: rest).drop sel.length) * (ann.length + 3) := by
          ring
        rw [hexp]
        simp only [List.length_cons] at hlen
        generalize cntAux n sel ((c :: rest).drop sel.length) * (ann.length + 3) = k
        omega
      · rw [if_neg hc, if_neg hc]
        simp only [List.length_cons, ih]
        generalize cntAux n sel rest * (ann.length + 3) = k
        omega

/-- Folding the annotation step over entries whose signature lists are all
empty (or whose lookups all failed) leaves the text unchanged. -/
theorem process_fold_untouched :
    ∀ (sels : List (List Char)) (lookup : List Char → Option (List String)) (t : List Char),
      (∀ s ∈ sels, lookup s = none ∨ lookup s = some []) →
      ((sels.filterMap (fun sel => (lookup sel).map (fun sigs => (sel, sigs)))).foldl
        annotateEntry t) = t := by
  intro sels
  induction sels with
  | nil => intro lookup t _; rfl
  | cons s ss ih =>
    intro lookup t h
    rcases h s (List.mem_cons_self s ss) with hnone | hnil
    · simp only [List.filterMap_cons, hnone, Option.map_none']
      exact ih lookup t (fun x hx => h x (List.mem_cons_of_mem _ hx))
    · simp only [List.filterMap_cons, hnil, Option.map_some']
      rw [List.foldl_cons]
      have hstep : annotateEntry t (s, []) = t := by simp [annotateEntry]
      rw [hstep]
      exact ih lookup t (fun x hx => h x (List.mem_cons_of_mem _ hx))

/-! ## Claim C6 -/

/-- C6: the trace annotation step is a pure function of (text, selector,
annotation).  Selectors with no resolved candidates are left untouched
(first conjunct); the substitution is global, rewriting exactly one
occurrence per counted match (length equation); and the operation is not
idempotent: on the concrete trace, both occurrences are annotated, and a
second application appends a second annotation suffix after each annotated
occurrence. -/
theorem annotator_global_pure :
    (∀ (lookup : List Char → Option (List String)) (t : List Char),
      (∀ s ∈ extractSelectors t, lookup s = none ∨ lookup s = some []) →
      processFunctionSelectors lookup t = t) ∧
    (∀ sel ann t : List Char,
      (annotateSel sel ann t).length = t.length + countOcc sel t * (ann.length + 3)) ∧
    annotateSel "0xdeadbeef".data "transfer(address,uint256)".data
        "A 0xdeadbeef B 0xdeadbeef C".data =
      "A 0xdeadbeef [transfer(address,uint256)] B 0xdeadbeef [transfer(address,uint256)] C".data ∧
    annotateSel "0xdeadbeef".data "transfer(address,uint256)".data
        "A 0xdeadbeef [transfer(address,uint256)] B 0xdeadbeef [transfer(address,uint256)] C".data =
      (String.data ("A 0xdeadbeef [transfer(address,uint256)] [transfer(address,uint256)]" ++
        " B 0xdeadbeef [transfer(address,uint256)] [transfer(address,uint256)] C")) ∧
    countOcc "0xdeadbeef".data "A 0xdeadbeef B 0xdeadbeef C".data = 2 := by
  refine ⟨?_, ?_, by decide, by decide, by decide⟩
  · intro lookup t h
    cases he : (extractSelectors t).isEmpty
    · simp only [processFunctionSelectors, he, if_neg]
      exact process_fold_untouched _ _ _ h
    · simp [processFunctionSelectors, he]
  · intro sel ann t
    exact annAux_length t.length sel ann t

/-- Witness for C6: the untouched-text conjunct at a concrete trace whose
one selector resolves to an empty candidate list. -/
theorem annotator_global_pure_witness :
    processFunctionSelectors (fun _ => some []) "x 0xdeadbeef y".data = "x 0xdeadbeef y".data :=
  annotator_global_pure.1 _ _ (by decide)

/-! ## Claim C7 -/

/-- C7 (counterexample): on a trace with zero extractable selectors the
processFunctionSelectors path does return the original text unmodified, but
produces no report; the analyze_transaction_trace path returns only the
message that no selectors were found — the original trace text is not part
of its output at all, contradicting the claim that both paths return the
original text together with a zero-selector report. -/
theorem zero_selector_counterexample :
    extractS "hello world" = [] ∧
    processFunctionSelectors (fun _ => none) "hello world".data = "hello world".data ∧
    (analyze_transaction_trace (fun _ => none) (fun _ => none) (fun _ => none) none
        "0xabc" "hello world").text =
      "No function selectors found in the transaction trace." ∧
    ¬ List.IsInfix "hello world".data
      (analyze_transaction_trace (fun _ => none) (fun _ => none) (fun _ => none) none
        "0xabc" "hello world").text.data := by
  exact ⟨by decide, by decide, by decide, by decide⟩

/-- C7 (amended): with zero extractable selectors both paths terminate
early; processFunctionSelectors returns the original text unmodified (and no
report), while analyze_transaction_trace returns only a message stating that
no selectors were found (without the original trace text). -/
theorem zero_selector_early_return :
    (∀ (lookup : List Char → Option (List String)) (t : List Char),
      extractSelectors t = [] → processFunctionSelectors lookup t = t) ∧
    (∀ (sigOf onlineOf fileRead : String → Option String) (sigFile : Option String)
      (txHash trace : String), extractS trace = [] →
      analyze_transaction_trace sigOf onlineOf fileRead sigFile txHash trace =
        ⟨"No function selectors found in the transaction trace.", false⟩) := by
  constructor
  · intro lookup t h
    simp [processFunctionSelectors, h]
  · intro sigOf onlineOf fileRead sigFile txHash trace h
    simp [analyze_transaction_trace, analyzeOutput, h]

/-- Witness for C7 (amended) at a concrete selector-free trace. -/
theorem zero_selector_early_return_witness :
    processFunctionSelectors (fun _ => none) "abc".data = "abc".data ∧
    analyze_transaction_trace (fun _ => none) (fun _ => none) (fun _ => none) none "0x1" "abc" =
      ⟨"No function selectors found in the transaction trace.", false⟩ :=
  ⟨zero_selector_early_return.1 _ _ (by decide), zero_selector_early_return.2 _ _ _ _ _ _ (by decide)⟩

/-! ## Claim C5 -/

/-- C5: in processFunctionSelectors, for every selector entry with a
non-empty candidate list, the inline annotation uses at most 3 signatures,
sorted by signature string length ascending before truncation and joined
with " or ".  The function consults no local signature file, so the chosen
list equals the spec's ranker (prefer local, fall back to remote) applied
with an empty local list. -/
theorem inline_ranker :
    ∀ (acc sel : List Char) (sigs : List String), 0 < sigs.length →
      annotateEntry acc (sel, sigs) =
        annotateSel sel ("Likely: " ++ String.intercalate " or " (rankInlineSpec [] sigs)).data acc ∧
      chooseInline sigs = rankInlineSpec [] sigs ∧
      (chooseInline sigs).length ≤ 3 ∧
      (chooseInline sigs).Pairwise (fun a b => a.length ≤ b.length) ∧
      (sortByLen sigs).Perm sigs := by
  intro acc sel sigs hpos
  have hspec : rankInlineSpec [] sigs = chooseInline sigs := by
    simp [rankInlineSpec, chooseInline]
  refine ⟨?_, hspec.symm, ?_, ?_, ?_⟩
  · simp [annotateEntry, hpos, chooseDisplay, hspec]
  · simp only [chooseInline]
    exact List.length_take_le 3 (sortByLen sigs)
  · have hs : (sortByLen sigs).Pairwise
        (fun a b => (fun x y : String => decide (x.length ≤ y.length)) a b = true) := by
      refine List.sorted_mergeSort ?_ ?_ sigs
      · intro a b c hab hbc
        simp only [decide_eq_true_eq] at hab hbc ⊢
        omega
      · intro a b
        simp only [Bool.or_eq_true, decide_eq_true_eq]
        omega
    have htake := hs.sublist (List.take_sublist 3 (sortByLen sigs))
    exact htake.imp (fun h => by simpa using h)
  · exact List.mergeSort_perm sigs _

/-- Witness for C5 at a concrete candidate list of four signatures. -/
theorem inline_ranker_witness :
    annotateEntry "x".data ("0xcafebabe".data, ["ccc(uint256)", "a()", "bb(int8)", "dddd(address,address)"]) =
      annotateSel "0xcafebabe".data
        ("Likely: " ++ String.intercalate " or "
          (rankInlineSpec [] ["ccc(uint256)", "a()", "bb(int8)", "dddd(address,address)"])).data
        "x".data ∧
    chooseInline ["ccc(uint256)", "a()", "bb(int8)", "dddd(address,address)"] =
      rankInlineSpec [] ["ccc(uint256)", "a()", "bb(int8)", "dddd(address,address)"] ∧
    (chooseInline ["ccc(uint256)", "a()", "bb(int8)", "dddd(address,address)"]).length ≤ 3 ∧
    (chooseInline ["ccc(uint256)", "a()", "bb(int8)", "dddd(address,address)"]).Pairwise
      (fun a b => a.length ≤ b.length) ∧
    (sortByLen ["ccc(uint256)", "a()", "bb(int8)", "dddd(address,address)"]).Perm
      ["ccc(uint256)", "a()", "bb(int8)", "dddd(address,address)"] :=
  inline_ranker _ _ _ (by decide)

/-! ## Claim C3 -/

/-- C3: for every candidate signature line of the local file (containing a
parenthesis) whose selector the toolchain computes successfully: an exact
match of the (trimmed) computed selector with the target adds the plain
signature; when the line is not an exact match, a fuzzy first-six-characters
match is accepted only with fuzzy matching enabled and is annotated as
partial with the computed selector included; otherwise the line is not
added.  Exact matches always appear in the matching list. -/
theorem local_matching_policy :
    ∀ (sigOf : String → Option String) (selector : String) (fz : Bool) (sig msg : String)
      (lines : List String),
      jsContains sig '(' = true → sigOf sig = some msg →
      ((jsTrim msg = selector → matchLine sigOf selector fz sig = some sig) ∧
       (jsTrim msg ≠ selector → fz = true → jsTake (jsTrim msg) 6 = jsTake selector 6 →
         matchLine sigOf selector fz sig =
           some (sig ++ " (partial match: " ++ jsTrim msg ++ ")")) ∧
       (jsTrim msg ≠ selector → (fz = false ∨ jsTake (jsTrim msg) 6 ≠ jsTake selector 6) →
         matchLine sigOf selector fz sig = none) ∧
       (sig ∈ lines → jsTrim msg = selector →
         sig ∈ matchingSignatures sigOf selector fz lines)) := by
  intro sigOf selector fz sig msg lines hpar hsig
  refine ⟨?_, ?_, ?_, ?_⟩
  · intro he
    simp [matchLine, hpar, hsig, he]
  · intro hne hf ht
    simp [matchLine, hpar, hsig, hne, hf, ht]
  · intro hne hcase
    rcases hcase with hf | ht
    · simp [matchLine, hpar, hsig, hne, hf]
    · simp [matchLine, hpar, hsig, hne, ht]
  · intro hmem he
    have hml : matchLine sigOf selector fz sig = some sig := by
      simp [matchLine, hpar, hsig, he]
    exact List.mem_filterMap.mpr ⟨sig, hmem, hml⟩

/-- Witness for C3: a fuzzy-only line is annotated as partial, and an exact
line lands in the matching list, at concrete oracles and file lines. -/
theorem local_matching_policy_witness :
    matchLine (fun s => if s = "transfer(address,uint256)" then some "0xa9059cbb"
        else some "0xa9059900") "0xa9059cbb" true "foo(uint8)" =
      some ("foo(uint8)" ++ " (partial match: " ++
        jsTrim "0xa9059900" ++ ")") ∧
    "transfer(address,uint256)" ∈ matchingSignatures
      (fun s => if s = "transfer(address,uint256)" then some "0xa9059cbb"
        else some "0xa9059900") "0xa9059cbb" true
      ["transfer(address,uint256)", "foo(uint8)"] :=
  ⟨((local_matching_policy (fun s => if s = "transfer(address,uint256)" then some "0xa9059cbb"
        else some "0xa9059900") "0xa9059cbb" true "foo(uint8)" "0xa9059900" [] (by decide)
        (by decide)).2.1 (by decide) rfl (by decide)),
    ((local_matching_policy (fun s => if s = "transfer(address,uint256)" then some "0xa9059cbb"
        else some "0xa9059900") "0xa9059cbb" true "transfer(address,uint256)" "0xa9059cbb"
        ["transfer(address,uint256)", "foo(uint8)"] (by decide) (by decide)).2.2.2
      (by decide) (by decide))⟩

/-! ## Claim C10 -/

/-- C10: the exact-match test of cast_4byte_from_file is case-sensitive
string equality of the trimmed computed selector with the target: whenever
they differ as strings — in particular when they differ only in hex-letter
case — the line is never recorded as an exact (plain) match, although the
entry point's validation regex accepts both uppercase and lowercase hex. -/
theorem exact_match_case_sensitive :
    ∀ (sigOf : String → Option String) (selector sig msg : String) (fz : Bool),
      sigOf sig = some msg → jsTrim msg ≠ selector →
      matchLine sigOf selector fz sig ≠ some sig ∧
      validSelector "0xABCDEF12" = true ∧ validSelector "0xabcdef12" = true := by
  intro sigOf selector sig msg fz hsig hne
  refine ⟨?_, by decide, by decide⟩
  by_cases hpar : jsContains sig '(' = true
  · unfold matchLine
    rw [hsig]
    simp only [hpar, Bool.not_true, Bool.false_eq_true, if_false]
    rw [if_neg (by simpa using hne)]
    by_cases hf : (fz && (jsTake (jsTrim msg) 6 == jsTake selector 6)) = true
    · rw [if_pos hf]
      intro hcontra
      have heq := Option.some.inj hcontra
      have hlen := congrArg String.length heq
      rw [String.length_append, String.length_append, String.length_append] at hlen
      have h17 : (" (partial match: " : String).length = 17 := by decide
      have h1 : (")" : String).length = 1 := by decide
      rw [h17, h1] at hlen
      omega
    · rw [if_neg hf]
      simp
  · simp [matchLine, hpar]

/-- Witness for C10: a computed selector differing from the target only in
hex-letter case is not recorded as an exact match, while validation accepts
both spellings. -/
theorem exact_match_case_sensitive_witness :
    matchLine (fun _ => some "0xabcdef12") "0xABCDEF12" false "foo()" ≠ some "foo()" ∧
    validSelector "0xABCDEF12" = true ∧ validSelector "0xabcdef12" = true :=
  exact_match_case_sensitive _ _ _ _ _ rfl (by decide)

/-! ## Claim C4 -/

/-- C4: in the analyze_transaction_trace report, the online section of a
selector block lists all candidates with no overflow item when there are at
most five, and lists exactly the first five followed by the literal
"... and N more" item (N being the count minus five) when there are more;
the local section always lists every local candidate. -/
theorem report_truncation :
    ∀ (locs onls : List String),
      (onls.length ≤ 5 → onlineSectionLines onls =
        (if 0 < onls.length
         then ("  Online matches (" ++ toString onls.length ++ "):") :: onls.map itemLine
         else [])) ∧
      (5 < onls.length → onlineSectionLines onls =
        ("  Online matches (" ++ toString onls.length ++ "):") :: ((onls.take 5).map itemLine
          ++ [itemLine ("... and " ++ toString (onls.length - 5) ++ " more")])) ∧
      (∀ sig ∈ locs, itemLine sig ∈ localSectionLines locs) ∧
      (localSectionLines locs).length = (if 0 < locs.length then locs.length + 1 else 0) := by
  intro locs onls
  refine ⟨?_, ?_, ?_, ?_⟩
  · intro h5
    unfold onlineSectionLines
    by_cases h0 : 0 < onls.length
    · rw [if_pos h0, if_pos h0, if_neg (by omega), List.take_of_length_le h5]
      simp
    · rw [if_neg h0, if_neg h0]
  · intro h5
    unfold onlineSectionLines
    rw [if_pos (by omega), if_pos h5]
    simp
  · intro sig hsig
    unfold localSectionLines
    rw [if_pos (List.length_pos.mpr (List.ne_nil_of_mem hsig))]
    exact List.mem_cons_of_mem _ (List.mem_map_of_mem _ hsig)
  · unfold localSectionLines
    by_cases h0 : 0 < locs.length
    · rw [if_pos h0, if_pos h0]
      simp
    · rw [if_neg h0, if_neg h0]
      rfl

/-- Witness for C4: seven online candidates show five plus "... and 2 more";
four candidates are all shown with no overflow item; local candidates are
always listed. -/
theorem report_truncation_witness :
    onlineSectionLines ["a", "b", "c", "d", "e", "f", "g"] =
      ["  Online matches (7):", "    - a", "    - b", "    - c", "    - d", "    - e",
        "    - ... and 2 more"] ∧
    onlineSectionLines ["a", "b", "c", "d"] =
      ["  Online matches (4):", "    - a", "    - b", "    - c", "    - d"] ∧
    itemLine "sig1()" ∈ localSectionLines ["sig1()", "sig2()"] := by
  refine ⟨?_, ?_, ?_⟩
  · rw [(report_truncation [] ["a", "b", "c", "d", "e", "f", "g"]).2.1 (by decide)]
    decide
  · rw [(report_truncation [] ["a", "b", "c", "d"]).1 (by decide)]
    decide
  · exact (report_truncation ["sig1()", "sig2()"] []).2.2.1 "sig1()" (by decide)

/-! ## Claim C8 -/

/-- C8: a non-existent local signature file is a terminal error (error flag
and "Signatures file not found" message, no matching computed) in the
single-selector entry point cast_4byte_from_file, while the full-trace entry
point analyze_transaction_trace does not fail: it behaves exactly as if no
signature file had been supplied (empty local match list for every selector)
and still produces the full report with the error flag clear. -/
theorem missing_signature_file :
    ∀ (sigOf onlineOf fileRead : String → Option String)
      (selector filePath f txHash trace : String) (fz : Bool),
      (validSelector selector = true → fileRead filePath = none →
        cast_4byte_from_file sigOf onlineOf fileRead selector filePath fz =
          ⟨"Signatures file not found: " ++ filePath, true⟩) ∧
      (fileRead f = none →
        analyze_transaction_trace sigOf onlineOf fileRead (some f) txHash trace =
          analyze_transaction_trace sigOf onlineOf fileRead none txHash trace) ∧
      (analyze_transaction_trace sigOf onlineOf fileRead (some f) txHash trace).isError = false := by
  intro sigOf onlineOf fileRead selector filePath f txHash trace fz
  refine ⟨?_, ?_, rfl⟩
  · intro hv hf
    simp [cast_4byte_from_file, hv, hf]
  · intro hf
    simp [analyze_transaction_trace, analyzeOutput, analyzeLocalSigs, hf]

/-- Witness for C8 at concrete oracles with no file system. -/
theorem missing_signature_file_witness :
    cast_4byte_from_file (fun _ => none) (fun _ => none) (fun _ => none)
        "0xabcdabcd" "/no/file" false =
      ⟨"Signatures file not found: " ++ "/no/file", true⟩ ∧
    analyze_transaction_trace (fun _ => none) (fun _ => none) (fun _ => none) (some "/no/file")
        "0xtx" "CALL 0xabcdabcd" =
      analyze_transaction_trace (fun _ => none) (fun _ => none) (fun _ => none) none
        "0xtx" "CALL 0xabcdabcd" ∧
    (analyze_transaction_trace (fun _ => none) (fun _ => none) (fun _ => none) (some "/no/file")
        "0xtx" "CALL 0xabcdabcd").isError = false :=
  ⟨(missing_signature_file (fun _ => none) (fun _ => none) (fun _ => none) "0xabcdabcd" "/no/file"
      "/no/file" "0xtx" "CALL 0xabcdabcd" false).1 (by decide) rfl,
   (missing_signature_file (fun _ => none) (fun _ => none) (fun _ => none) "0xabcdabcd" "/no/file"
      "/no/file" "0xtx" "CALL 0xabcdabcd" false).2.1 rfl,
   (missing_signature_file (fun _ => none) (fun _ => none) (fun _ => none) "0xabcdabcd" "/no/file"
      "/no/file" "0xtx" "CALL 0xabcdabcd" false).2.2⟩

/-! ## Claim C9 -/

/-- A filterMap is unchanged by first dropping the elements on which the
function returns none. -/
theorem filterMap_eq_filterMap_filter {α β : Type} (f : α → Option β) (p : α → Bool)
    (h : ∀ a, p a = false → f a = none) :
    ∀ l : List α, l.filterMap f = (l.filter p).filterMap f := by
  intro l
  induction l with
  | nil => rfl
  | cons a l ih =>
    by_cases hp : p a = true
    · rw [List.filter_cons_of_pos hp, List.filterMap_cons, List.filterMap_cons]
      cases hfa : f a
      · simpa [hfa] using ih
      · simp [hfa, ih]
    · have hf := h a (by simpa using hp)
      rw [List.filter_cons_of_neg (by simpa using hp), List.filterMap_cons, hf]
      exact ih

/-- C9: in both entry points, the candidate signature lines considered for
selector matching are exactly the file's lines that are non-blank after
trimming, do not start with a hash mark, and contain a parenthesis:
cast_4byte_from_file's looser line filter composed with its in-loop
parenthesis skip coincides with analyze_transaction_trace's line filter, the
matching loop sees exactly those lines, and membership in that candidate
list is characterised by the three conditions. -/
theorem candidate_lines :
    ∀ (content : String) (sigOf : String → Option String) (selector : String) (fz : Bool),
      (castFileLines content).filter (fun l => jsContains l '(') = analyzeFileLines content ∧
      matchingSignatures sigOf selector fz (castFileLines content) =
        matchingSignatures sigOf selector fz (analyzeFileLines content) ∧
      ∀ l, l ∈ analyzeFileLines content ↔
        (l ∈ (jsSplitNl content).map jsTrim ∧ ¬(l = "") ∧ jsStartsWith l "#" = false ∧
          jsContains l '(' = true) := by
  intro content sigOf selector fz
  have h1 : (castFileLines content).filter (fun l => jsContains l '(') =
      analyzeFileLines content := by
    unfold castFileLines analyzeFileLines
    rw [List.filter_filter]
    apply List.filter_congr
    intro a _
    cases ha : (a == "") <;> cases hb : jsStartsWith a "#" <;>
      cases hc : jsContains a '(' <;> simp [ha, hb, hc]
  refine ⟨h1, ?_, ?_⟩
  · unfold matchingSignatures
    rw [← h1]
    exact filterMap_eq_filterMap_filter (matchLine sigOf selector fz)
      (fun l => jsContains l '(') (fun a ha => by simp [matchLine, ha]) (castFileLines content)
  · intro l
    unfold analyzeFileLines
    rw [List.mem_filter]
    simp [Bool.and_eq_true, Bool.not_eq_true', and_assoc]

/-- Witness for C9 at a concrete file content with a comment line, a blank
line, and a parenthesis-free line. -/
theorem candidate_lines_witness :
    (castFileLines "# c\n\n transfer(address,uint256) \nnoparen\nfoo(uint8)").filter
        (fun l => jsContains l '(') =
      analyzeFileLines "# c\n\n transfer(address,uint256) \nnoparen\nfoo(uint8)" ∧
    analyzeFileLines "# c\n\n transfer(address,uint256) \nnoparen\nfoo(uint8)" =
      ["transfer(address,uint256)", "foo(uint8)"] :=
  ⟨(candidate_lines "# c\n\n transfer(address,uint256) \nnoparen\nfoo(uint8)"
      (fun _ => none) "x" false).1, by decide⟩
